import Mathlib

/-!
Shallow embedding of `src/numa.rs` (NUMA-aware topology discovery, thread
binding and per-node value replication).

The Topology Map (`HashMap<usize, Vec<usize>>` in the source) is modelled as an
association list in iteration order: `HashMap` iteration order is arbitrary, so
theorems quantify over all orders and counterexamples exhibit a concrete order.
-/

/-- A Topology Map in some iteration order: node identifier paired with the
ordered sequence of logical-processor identifiers attached to it. -/
abbrev TopologyMap := List (Nat × List Nat)

/-- `MAXIMUM_PROC_PER_GROUP` from the source (Windows processor-group size). -/
def MAXIMUM_PROC_PER_GROUP : Nat := 64

/-- `libc::CPU_SETSIZE` on Linux. -/
def CPU_SETSIZE : Nat := 1024

/-- `mapping().values().map(|cpus| cpus.len()).sum()` — the total processor
count over all nodes (Linux `num_cpus`, Windows `num_cpus`). -/
def numCpus : TopologyMap → Nat
  | [] => 0
  | (_, cpus) :: rest => cpus.length + numCpus rest

/-- `mapping().iter().find_map(|(node, cpus)| cpus.contains(&id).then_some(*node))`
— first node (in iteration order) whose processor list contains `slot`. -/
def findNodeOf (slot : Nat) : TopologyMap → Option Nat
  | [] => none
  | (n, cpus) :: rest => if slot ∈ cpus then some n else findNodeOf slot rest

/-- Outcome of the Linux `bind_thread`: `panic` models the Rust panic raised by
`id % num_cpus()` when the total is zero; `run node` models the pair of OS
requests `numa_run_on_node(node)` / `numa_set_preferred(node)`. -/
inductive LinuxBind where
  | panic
  | run (node : Nat)
deriving DecidableEq

/-- Linux `bind_thread(id)`: computes `id % num_cpus()` (panicking on a zero
total), then targets the first node whose cpu list contains the slot,
defaulting to node 0 (`unwrap_or(0)`). -/
def bindThreadLinux (map : TopologyMap) (id : Nat) : LinuxBind :=
  if numCpus map = 0 then .panic
  else .run ((findNodeOf (id % numCpus map) map).getD 0)

/-- `cpus[remaining]`-walk of the Windows `bind_thread`: skip empty nodes,
stop at the node whose range contains the remaining slot, returning that node
and the selected cpu; `none` models the `cpu = None → return` path. -/
def walkSlots : Nat → TopologyMap → Option (Nat × Nat)
  | _, [] => none
  | slot, (n, cpus) :: rest =>
    if cpus.length = 0 then walkSlots slot rest
    else if slot < cpus.length then some (n, cpus.getD slot 0)
    else walkSlots (slot - cpus.length) rest

/-- One step of `entries.sort_unstable_by_key(|&(node, _)| node)`: ordered
insertion by node key (node keys of a `HashMap` are pairwise distinct, so any
by-key sort produces this result). -/
def insertByKey (p : Nat × List Nat) : TopologyMap → TopologyMap
  | [] => [p]
  | q :: rest => if p.1 ≤ q.1 then p :: q :: rest else q :: insertByKey p rest

/-- `entries.sort_unstable_by_key(|&(node, _)| node)` as insertion sort. -/
def sortByKey : TopologyMap → TopologyMap
  | [] => []
  | p :: rest => insertByKey p (sortByKey rest)

/-- Outcome of the Windows `bind_thread`: `noop` models the early returns
(zero total, or no cpu selected); `affinity` records the target node, the
selected cpu, and the derived processor group and bit of the
`GROUP_AFFINITY` passed to `SetThreadGroupAffinity`. -/
inductive WinBind where
  | noop
  | affinity (node cpu group bit : Nat)
deriving DecidableEq

/-- Windows `bind_thread(id)`: returns early when the total is zero, otherwise
sorts the entries by node key and walks them accumulating cpu-list lengths. -/
def bindThreadWindows (map : TopologyMap) (id : Nat) : WinBind :=
  if numCpus map = 0 then .noop
  else
    match walkSlots (id % numCpus map) (sortByKey map) with
    | none => .noop
    | some nc =>
      .affinity nc.1 nc.2 (nc.2 / MAXIMUM_PROC_PER_GROUP) (nc.2 % MAXIMUM_PROC_PER_GROUP)

/-- Two-node scenario from the spec: node 0 owns processors 0–3, node 1 owns
processors 4–7 (one of the two possible iteration orders). -/
def scenMap : TopologyMap := [(0, [0, 1, 2, 3]), (1, [4, 5, 6, 7])]

/-- The same scenario in the other iteration order. -/
def scenMapRev : TopologyMap := [(1, [4, 5, 6, 7]), (0, [0, 1, 2, 3])]

theorem numCpus_append (l₁ l₂ : TopologyMap) :
    numCpus (l₁ ++ l₂) = numCpus l₁ + numCpus l₂ := by
  induction l₁ with
  | nil => simp [numCpus]
  | cons p rest ih => simp [numCpus, ih]; omega

theorem walkSlots_append (pre : TopologyMap) (n : Nat) (cpus : List Nat)
    (post : TopologyMap) (k : Nat) (hk : k < cpus.length) :
    walkSlots (numCpus pre + k) (pre ++ (n, cpus) :: post) = some (n, cpus.getD k 0) := by
  induction pre with
  | nil =>
    simp only [numCpus, Nat.zero_add, List.nil_append, walkSlots]
    rw [if_neg (by omega), if_pos hk]
  | cons p rest ih =>
    obtain ⟨m, cs⟩ := p
    simp only [numCpus, List.cons_append, walkSlots]
    by_cases hcs : cs.length = 0
    · rw [if_pos hcs]
      rw [hcs, Nat.zero_add]
      exact ih
    · rw [if_neg hcs, if_neg (by omega)]
      have : cs.length + numCpus rest + k - cs.length = numCpus rest + k := by omega
      rw [this]
      exact ih

/-- One pass of the replica-construction loop shared by the Linux and Windows
`NumaReplicator::new`: iterate the Topology Map in order, skip nodes with an
empty cpu list, and for each remaining node allocate and in-place construct one
value by calling the factory once. The factory is stateful (`σ → α × σ`) so
that non-idempotent factories are expressible; allocation is modelled as always
succeeding (allocation failure panics in the source and constructs nothing). -/
def runNew {σ α : Type} (factory : σ → α × σ) : TopologyMap → σ → List α × σ
  | [], s => ([], s)
  | (_, cpus) :: rest, s =>
    if cpus.isEmpty then runNew factory rest s
    else
      let vs := factory s
      let r := runNew factory rest vs.2
      (vs.1 :: r.1, r.2)

/-- Linux `NumaReplicator::new`: panics (`none`) when `numa_available() < 0`,
otherwise runs the per-node construction loop over the Topology Map. -/
def newLinux {σ α : Type} (numaAvailable : Bool) (factory : σ → α × σ)
    (map : TopologyMap) (s : σ) : Option (List α × σ) :=
  if numaAvailable then some (runNew factory map s) else none

/-- Windows `NumaReplicator::new`: no availability check, just the loop. -/
def newWindows {σ α : Type} (factory : σ → α × σ) (map : TopologyMap) (s : σ) :
    List α × σ :=
  runNew factory map s

/-- `NumaReplicator::new` on the `not(feature = "numa")` build path: one
generic allocation, one factory call. -/
def newGeneric {σ α : Type} (factory : σ → α × σ) (s : σ) : List α × σ :=
  ([(factory s).1], (factory s).2)

/-- A non-idempotent factory: returns the current counter and increments it,
so consecutive invocations produce distinct values. -/
def counterFactory : Nat → Nat × Nat := fun s => (s, s + 1)

/-- Events emitted by `Drop for NumaReplicator`: in-place destruction
(`drop_in_place`) and release of the allocation (`numa_free` /
`VirtualFree` / `dealloc`), identified by the replica pointer. -/
inductive DropEvent where
  | destroy (p : Nat)
  | free (p : Nat)
deriving DecidableEq

/-- `Drop for NumaReplicator`: for each pointer in `allocated`, in order,
destroy the value in place and then release its allocation. -/
def dropReplicator (allocated : List Nat) : List DropEvent :=
  allocated.flatMap fun p => [DropEvent.destroy p, DropEvent.free p]

/-- `enumerate().find_map(...).unwrap_or(0)` with predicate `p`: index of the
first entry satisfying `p`, defaulting to 0. -/
def findIdxOr0 (p : Nat × List Nat → Bool) : TopologyMap → Option Nat
  | [] => none
  | x :: rest => if p x then some 0 else (findIdxOr0 p rest).map (· + 1)

/-- Linux `NumaReplicator::get`: `node` is the (possibly negative) result of
`numa_node_of_cpu(sched_getcpu())`; the replica index is the position of the
first map entry whose node id equals `node`, defaulting to 0. -/
def getIndexLinux (map : TopologyMap) (node : Int) : Nat :=
  (findIdxOr0 (fun p => (p.1 : Int) == node) map).getD 0

/-- Windows `NumaReplicator::get`, first step: the node owning the current
processor, via membership search over the map, defaulting to node id 0. -/
def currentNodeWindows (map : TopologyMap) (cpu : Nat) : Nat :=
  (findNodeOf cpu map).getD 0

/-- Windows `NumaReplicator::get`: position of the first map entry whose node
id equals the current node, defaulting to 0. -/
def getIndexWindows (map : TopologyMap) (cpu : Nat) : Nat :=
  (findIdxOr0 (fun p => p.1 == currentNodeWindows map cpu) map).getD 0

/-- State of the `MAPPING: OnceLock` cache plus a count of how many times the
OS discovery routine has run. -/
structure TopoCache where
  cache : Option TopologyMap
  osQueries : Nat
deriving DecidableEq

/-- One call of `mapping()`: `MAPPING.get_or_init(...)` runs discovery only
when the cache is empty, and returns the cached map (a clone) thereafter.
`discover` is the map that the platform discovery routine would compute. -/
def mappingCall (discover : TopologyMap) : TopoCache → TopologyMap × TopoCache
  | ⟨none, q⟩ => (discover, ⟨some discover, q + 1⟩)
  | ⟨some m, q⟩ => (m, ⟨some m, q⟩)

/-- Results and final cache state of `n` successive `mapping()` calls. -/
def mappingCalls (discover : TopologyMap) : Nat → TopoCache → List TopologyMap × TopoCache
  | 0, st => ([], st)
  | n + 1, st =>
    let r := mappingCall discover st
    let rest := mappingCalls discover n r.2
    (r.1 :: rest.1, rest.2)

/-- OS responses consumed by the Linux discovery routine: the value of
`numa_max_node() as usize`, and the observed cpumask bits per node — a query
that errors leaves the freshly allocated (zeroed) mask untouched, so errors
appear as all-false rows. -/
structure LinuxEnv where
  maxNode : Nat
  isbitset : Nat → Nat → Bool

/-- Linux discovery (`initialize` inside `mapping`): for each node in
`0..=max_node`, collect the cpus `0..CPU_SETSIZE` whose mask bit is set, and
keep the node only when that list is non-empty. -/
def mappingLinux (env : LinuxEnv) : TopologyMap :=
  (List.range (env.maxNode + 1)).filterMap fun node =>
    let cpus := (List.range CPU_SETSIZE).filter fun cpu => env.isbitset node cpu
    if cpus.isEmpty then none else some (node, cpus)

/-- OS responses consumed by the Windows discovery routine:
`GetNumaHighestNodeNumber` (success flag and value),
`GetActiveProcessorGroupCount`, per-group `GetActiveProcessorCount`, and
`GetNumaProcessorNodeEx` (`none` models a zero return, i.e. failure). -/
structure WinEnv where
  highestOk : Bool
  highestNode : Nat
  groupCount : Nat
  activeCount : Nat → Nat
  nodeOf : Nat → Nat → Option Nat

/-- `map.entry(node).or_default().push(cpu)` on an association list in
insertion order. -/
def insertCpu (node cpu : Nat) : TopologyMap → TopologyMap
  | [] => [(node, [cpu])]
  | (n, cpus) :: rest =>
    if n = node then (n, cpus ++ [cpu]) :: rest else (n, cpus) :: insertCpu node cpu rest

/-- Windows discovery (`initialize` inside `mapping`): empty on
`GetNumaHighestNodeNumber` failure; otherwise for every group and in-group
processor number, skip processors whose node query fails or reports a node
above the highest, insert `group * MAXIMUM_PROC_PER_GROUP + number` under the
reported node, and finally retain only non-empty nodes. -/
def mappingWindows (env : WinEnv) : TopologyMap :=
  if env.highestOk = false then []
  else
    let pairs := (List.range env.groupCount).flatMap fun g =>
      (List.range (env.activeCount g)).map fun num => (g, num)
    let m := pairs.foldl (fun m gn =>
      match env.nodeOf gn.1 gn.2 with
      | none => m
      | some node =>
        if env.highestNode < node then m
        else insertCpu node (gn.1 * MAXIMUM_PROC_PER_GROUP + gn.2) m) []
    m.filter fun p => !p.2.isEmpty

/-- C2: with a zero total processor count `bind_thread` is required to be a
no-op on every build path. The Windows backend guards the zero total and
returns without any OS request, but the Linux backend computes
`id % num_cpus()` unguarded and panics on the modulo by zero. -/
theorem bindThread_zero_total (map : TopologyMap) (id : Nat) (h : numCpus map = 0) :
    bindThreadLinux map id = .panic ∧ bindThreadWindows map id = .noop := by
  constructor
  · simp [bindThreadLinux, h]
  · simp [bindThreadWindows, h]

theorem bindThread_zero_total_witness :
    numCpus [] = 0 ∧ bindThreadLinux [] 0 = .panic :=
  ⟨rfl, (bindThread_zero_total [] 0 rfl).1⟩

/-- C8: on a fixed Topology Map with positive total, identifiers congruent
modulo the total select the same target on both backends — the whole outcome
of `bind_thread` depends on the identifier only through `id % num_cpus`. -/
theorem bindThread_mod_equiv (map : TopologyMap) (i1 i2 : Nat)
    (h : numCpus map ≠ 0) (hmod : i1 % numCpus map = i2 % numCpus map) :
    bindThreadLinux map i1 = bindThreadLinux map i2 ∧
    bindThreadWindows map i1 = bindThreadWindows map i2 := by
  constructor
  · simp only [bindThreadLinux, if_neg h, hmod]
  · simp only [bindThreadWindows, if_neg h, hmod]

theorem bindThread_mod_equiv_witness :
    numCpus scenMap ≠ 0 ∧ 5 % numCpus scenMap = 13 % numCpus scenMap ∧
    bindThreadLinux scenMap 5 = bindThreadLinux scenMap 13 :=
  ⟨by decide, by decide, (bindThread_mod_equiv scenMap 5 13 (by decide) (by decide)).1⟩

/-- C3 counterexample: on the Linux backend `bind_thread` does not walk the
nodes accumulating sequence lengths; it looks the slot value up as a processor
identifier. On the map with node 2 owning processor 5 and node 3 owning
processor 6, identifier 0 gives slot 0, which is nobody's processor id, so
Linux targets the default node 0 — a node absent from the map — while the
accumulate-walk described by the claim targets node 2 or node 3 (shown below
under both possible iteration orders). -/
theorem bindThreadLinux_not_accumulate_cex :
    bindThreadLinux [(2, [5]), (3, [6])] 0 = .run 0 ∧
    walkSlots 0 [(2, [5]), (3, [6])] = some (2, 5) ∧
    walkSlots 0 [(3, [6]), (2, [5])] = some (3, 6) := by
  decide

/-- C3 amended: the Windows backend computes `slot = id % total` and walks the
nodes sorted by node id accumulating sequence lengths until the slot falls in a
node's range (first conjunct); the Linux backend instead targets the node whose
processor list contains the slot value, defaulting to node 0. On the spec's
scenario (node 0 with processors 0–3, node 1 with processors 4–7, either
iteration order), `bind_thread(5)` and `bind_thread(13)` target node 1 on both
backends. -/
theorem bindThread_target_selection :
    (∀ (map : TopologyMap) (id : Nat) (pre post : TopologyMap) (n k : Nat)
      (cpus : List Nat),
      numCpus map ≠ 0 →
      sortByKey map = pre ++ (n, cpus) :: post →
      id % numCpus map = numCpus pre + k →
      k < cpus.length →
      bindThreadWindows map id =
        .affinity n (cpus.getD k 0) (cpus.getD k 0 / MAXIMUM_PROC_PER_GROUP)
          (cpus.getD k 0 % MAXIMUM_PROC_PER_GROUP)) ∧
    bindThreadLinux scenMap 5 = .run 1 ∧ bindThreadLinux scenMap 13 = .run 1 ∧
    bindThreadLinux scenMapRev 5 = .run 1 ∧ bindThreadLinux scenMapRev 13 = .run 1 ∧
    bindThreadWindows scenMap 5 = .affinity 1 5 0 5 ∧
    bindThreadWindows scenMap 13 = .affinity 1 5 0 5 ∧
    bindThreadWindows scenMapRev 5 = .affinity 1 5 0 5 ∧
    bindThreadWindows scenMapRev 13 = .affinity 1 5 0 5 := by
  refine ⟨?_, by decide, by decide, by decide, by decide,
    by decide, by decide, by decide, by decide⟩
  intro map id pre post n k cpus h hsort hslot hk
  simp only [bindThreadWindows, if_neg h, hslot, hsort,
    walkSlots_append pre n cpus post k hk]

theorem bindThread_target_selection_witness :
    numCpus scenMap ≠ 0 ∧ bindThreadWindows scenMap 13 = .affinity 1 5 0 5 :=
  ⟨by decide, bindThread_target_selection.1 scenMap 13 [(0, [0, 1, 2, 3])] [] 1 1
    [4, 5, 6, 7] (by decide) (by decide) (by decide) (by decide)⟩

/-- C1 counterexample: on the NUMA build paths an empty Topology Map yields
zero replicas, not one — the per-node loop simply never runs and there is no
generic-allocator fallback branch in the Linux or Windows `new`. -/
theorem new_emptyMap_zero_replicas_cex :
    newLinux true counterFactory [] 0 = some ([], 0) ∧
    (newWindows counterFactory [] 0).1.length = 0 := by
  decide

/-- C1 amended: only the `not(feature = "numa")` build path constructs exactly
one replica with the generic allocator; on the Linux and Windows NUMA build
paths an empty Topology Map yields an empty replica set (and the Linux path
panics outright when `numa_available() < 0`, regardless of the map). -/
theorem new_build_paths_replica_counts (σ α : Type) (factory : σ → α × σ) (s : σ) :
    (newGeneric factory s).1.length = 1 ∧
    newLinux true factory [] s = some ([], s) ∧
    newWindows factory [] s = ([], s) ∧
    newLinux false factory [] s = none :=
  ⟨rfl, rfl, rfl, rfl⟩

theorem runNew_counter (map : TopologyMap) (h : ∀ p ∈ map, p.2 ≠ ([] : List Nat)) :
    ∀ s : Nat, runNew counterFactory map s = (List.range' s map.length, s + map.length) := by
  induction map with
  | nil => intro s; simp [runNew, List.range']
  | cons p rest ih =>
    intro s
    obtain ⟨n, cpus⟩ := p
    have hrest : ∀ q ∈ rest, q.2 ≠ ([] : List Nat) := fun q hq => h q (List.mem_cons_of_mem _ hq)
    match cpus, h (n, cpus) (List.mem_cons_self _ _) with
    | c :: cs, _ =>
      simp only [runNew, List.isEmpty_cons, Bool.false_eq_true, if_false,
        counterFactory, ih hrest (s + 1), List.length_cons, List.range', Prod.mk.injEq]
      exact ⟨trivial, by omega⟩

/-- C5: with a non-idempotent counter factory, `new` over a Topology Map all
of whose nodes have non-empty processor sequences (every map `mapping()`
produces is of this shape) yields the replica list `range' s (map.length)`:
one factory invocation per node (final counter minus initial counter equals
the node count), pairwise distinct replica values, and replica count equal to
the node count. -/
theorem new_factory_invocations (map : TopologyMap) (s : Nat)
    (h : ∀ p ∈ map, p.2 ≠ ([] : List Nat)) :
    (runNew counterFactory map s).1 = List.range' s map.length ∧
    (runNew counterFactory map s).2 = s + map.length ∧
    (runNew counterFactory map s).1.Nodup ∧
    (runNew counterFactory map s).1.length = map.length := by
  have hr := runNew_counter map h s
  refine ⟨by rw [hr], by rw [hr], ?_, by rw [hr]; exact List.length_range' ..⟩
  rw [hr]
  exact List.nodup_range' s map.length

theorem new_factory_invocations_witness :
    (∀ p ∈ scenMap, p.2 ≠ ([] : List Nat)) ∧
    (runNew counterFactory scenMap 0).1 = [0, 1] :=
  ⟨by decide, by
    have := (new_factory_invocations scenMap 0 (by decide)).1
    simpa [scenMap, List.range'] using this⟩

theorem dropReplicator_count_destroy (L : List Nat) (p : Nat) :
    (dropReplicator L).count (DropEvent.destroy p) = L.count p := by
  induction L with
  | nil => rfl
  | cons a rest ih =>
    simp only [dropReplicator, List.flatMap_cons] at *
    simp [List.count_cons, List.count_append, ih]

theorem dropReplicator_count_free (L : List Nat) (p : Nat) :
    (dropReplicator L).count (DropEvent.free p) = L.count p := by
  induction L with
  | nil => rfl
  | cons a rest ih =>
    simp only [dropReplicator, List.flatMap_cons] at *
    simp [List.count_cons, List.count_append, ih]

/-- C6: dropping a `NumaReplicator` whose `allocated` pointers are pairwise
distinct emits, for every constructed replica, exactly one in-place destruction
event and exactly one matching deallocation event; pointers not in `allocated`
are never destroyed or freed. -/
theorem drop_destroys_each_once (L : List Nat) (hnd : L.Nodup) (p : Nat) :
    (p ∈ L → (dropReplicator L).count (DropEvent.destroy p) = 1 ∧
             (dropReplicator L).count (DropEvent.free p) = 1) ∧
    (p ∉ L → (dropReplicator L).count (DropEvent.destroy p) = 0 ∧
             (dropReplicator L).count (DropEvent.free p) = 0) := by
  refine ⟨fun hp => ?_, fun hp => ?_⟩
  · rw [dropReplicator_count_destroy, dropReplicator_count_free]
    exact ⟨List.count_eq_one_of_mem hnd hp, List.count_eq_one_of_mem hnd hp⟩
  · rw [dropReplicator_count_destroy, dropReplicator_count_free]
    exact ⟨List.count_eq_zero.mpr hp, List.count_eq_zero.mpr hp⟩

theorem drop_destroys_each_once_witness :
    ([10, 20] : List Nat).Nodup ∧
    (dropReplicator [10, 20]).count (DropEvent.destroy 10) = 1 :=
  ⟨by decide, ((drop_destroys_each_once [10, 20] (by decide) 10).1 (by decide)).1⟩

theorem findIdxOr0_eq_none (p : Nat × List Nat → Bool) (l : TopologyMap)
    (h : ∀ x ∈ l, p x = false) : findIdxOr0 p l = none := by
  induction l with
  | nil => rfl
  | cons x rest ih =>
    have hx := h x (List.mem_cons_self _ _)
    simp only [findIdxOr0, hx, Bool.false_eq_true, if_false]
    rw [ih fun y hy => h y (List.mem_cons_of_mem _ hy)]
    rfl

theorem findIdxOr0_lt_length (p : Nat × List Nat → Bool) :
    ∀ (l : TopologyMap) (i : Nat), findIdxOr0 p l = some i → i < l.length := by
  intro l
  induction l with
  | nil => intro i h; exact absurd h (by simp [findIdxOr0])
  | cons x rest ih =>
    intro i h
    by_cases hx : p x
    · simp only [findIdxOr0, hx, if_true] at h
      cases h
      simp
    · simp only [findIdxOr0, hx, Bool.false_eq_true, if_false] at h
      match hr : findIdxOr0 p rest with
      | none => rw [hr] at h; exact absurd h (by simp)
      | some j =>
        rw [hr] at h
        cases h
        have := ih j hr
        simp only [List.length_cons]
        omega

theorem findNodeOf_eq_none (slot : Nat) (l : TopologyMap)
    (h : ∀ q ∈ l, slot ∉ q.2) : findNodeOf slot l = none := by
  induction l with
  | nil => rfl
  | cons x rest ih =>
    obtain ⟨n, cpus⟩ := x
    have hx : slot ∉ cpus := h (n, cpus) (List.mem_cons_self _ _)
    simp only [findNodeOf, if_neg hx]
    exact ih fun y hy => h y (List.mem_cons_of_mem _ hy)

/-- C7 counterexample: on the Windows backend, when the current processor (99)
belongs to no node of the map, `get` falls back to *node id 0*, not to the
first replica in construction order: with iteration order
`[(1, [4]), (0, [2])]` the returned replica index is 1 (node 0's position),
not 0. -/
theorem getWindows_fallback_cex :
    (99 ∉ ([4] : List Nat)) ∧ (99 ∉ ([2] : List Nat)) ∧
    getIndexWindows [(1, [4]), (0, [2])] 99 = 1 := by
  decide

/-- C7 amended: on the Linux backend, when `numa_node_of_cpu` yields a node id
matching no map entry (including the failure value −1), `get` returns the first
replica (index 0). On the Windows backend, an unmappable current processor
falls back to node id 0, so `get` returns the first replica only when node 0 is
itself absent from the map; when node 0 is present, `get` returns node 0's
replica at whatever position it occupies. In all cases the returned index is
within the replica vector whenever at least one replica exists. -/
theorem get_fallback_behavior :
    (∀ (map : TopologyMap) (node : Int),
      (∀ q ∈ map, (q.1 : Int) ≠ node) → getIndexLinux map node = 0) ∧
    (∀ (map : TopologyMap) (cpu : Nat),
      (∀ q ∈ map, cpu ∉ q.2) → (∀ q ∈ map, q.1 ≠ 0) → getIndexWindows map cpu = 0) ∧
    (∀ (map : TopologyMap) (node : Int), map ≠ [] → getIndexLinux map node < map.length) ∧
    (∀ (map : TopologyMap) (cpu : Nat), map ≠ [] → getIndexWindows map cpu < map.length) := by
  have hbound : ∀ (p : Nat × List Nat → Bool) (map : TopologyMap), map ≠ [] →
      (findIdxOr0 p map).getD 0 < map.length := by
    intro p map hne
    match hr : findIdxOr0 p map with
    | none =>
      simp only [Option.getD]
      exact List.length_pos.mpr hne
    | some i => exact findIdxOr0_lt_length p map i hr
  refine ⟨?_, ?_, fun map node hne => hbound _ map hne, fun map cpu hne => hbound _ map hne⟩
  · intro map node h
    unfold getIndexLinux
    rw [findIdxOr0_eq_none _ _ fun q hq => by
      simpa using h q hq]
    rfl
  · intro map cpu h h0
    unfold getIndexWindows
    have hnode : currentNodeWindows map cpu = 0 := by
      unfold currentNodeWindows
      rw [findNodeOf_eq_none cpu map h]
      rfl
    rw [findIdxOr0_eq_none _ _ fun q hq => by
      simp [hnode]
      exact h0 q hq]
    rfl

theorem get_fallback_behavior_witness :
    (∀ q ∈ ([(3, [7])] : TopologyMap), (q.1 : Int) ≠ (-1 : Int)) ∧
    getIndexLinux [(3, [7])] (-1) = 0 :=
  ⟨by decide, get_fallback_behavior.1 [(3, [7])] (-1) (by decide)⟩

/-- C4: discovery failures yield an empty Topology Map on both backends, with
no error value: on Linux, when every cpumask query reports no bits set (a
failed `numa_node_to_cpus` leaves the freshly allocated zeroed mask untouched,
and a host with no NUMA cpus sets no bits), every node is dropped and the map
is empty; on Windows, a failed `GetNumaHighestNodeNumber` returns the empty
map immediately. -/
theorem mapping_discovery_failure_empty :
    (∀ env : LinuxEnv, (∀ node cpu, env.isbitset node cpu = false) →
      mappingLinux env = []) ∧
    (∀ env : WinEnv, env.highestOk = false → mappingWindows env = []) := by
  constructor
  · intro env h
    unfold mappingLinux
    apply List.filterMap_eq_nil_iff.mpr
    intro a _
    have hfil : (List.range CPU_SETSIZE).filter (fun cpu => env.isbitset a cpu) = [] :=
      List.filter_eq_nil_iff.mpr fun c _ => by simp [h]
    simp [hfil]
  · intro env h
    unfold mappingWindows
    rw [if_pos h]

theorem mapping_discovery_failure_empty_witness :
    mappingLinux ⟨1, fun _ _ => false⟩ = [] ∧
    mappingWindows ⟨false, 0, 0, fun _ => 0, fun _ _ => none⟩ = [] :=
  ⟨mapping_discovery_failure_empty.1 ⟨1, fun _ _ => false⟩ (fun _ _ => rfl),
   mapping_discovery_failure_empty.2 ⟨false, 0, 0, fun _ => 0, fun _ _ => none⟩ rfl⟩

theorem mappingCalls_cached (d m : TopologyMap) (q : Nat) :
    ∀ n : Nat, mappingCalls d n ⟨some m, q⟩ = (List.replicate n m, ⟨some m, q⟩) := by
  intro n
  induction n with
  | zero => rfl
  | succ k ih => simp [mappingCalls, mappingCall, ih, List.replicate]

/-- C9: starting from an untouched cache, a sequence of `n ≥ 1` calls to
`mapping()` runs the OS discovery routine exactly once (the query counter ends
at 1), every call returns the same map the first call computed, and the cache
holds that map for the rest of the process. -/
theorem mapping_cached_once (d : TopologyMap) (n : Nat) (h : 1 ≤ n) :
    mappingCalls d n ⟨none, 0⟩ = (List.replicate n d, ⟨some d, 1⟩) := by
  match n, h with
  | k + 1, _ =>
    simp [mappingCalls, mappingCall, mappingCalls_cached, List.replicate]

theorem mapping_cached_once_witness :
    1 ≤ 3 ∧
    mappingCalls [(0, [1])] 3 ⟨none, 0⟩ =
      (List.replicate 3 [(0, [1])], ⟨some [(0, [1])], 1⟩) :=
  ⟨by decide, mapping_cached_once [(0, [1])] 3 (by decide)⟩

/-- C10: on the Linux backend every processor identifier stored in any node's
sequence of the discovered Topology Map is strictly below `CPU_SETSIZE`
(1024), because discovery only tests mask bits for cpus in
`0..CPU_SETSIZE`. -/
theorem mappingLinux_cpus_bounded (env : LinuxEnv) (node c : Nat)
    (cpus : List Nat) (hmem : (node, cpus) ∈ mappingLinux env) (hc : c ∈ cpus) :
    c < CPU_SETSIZE := by
  simp only [mappingLinux, List.mem_filterMap] at hmem
  obtain ⟨a, _, hf⟩ := hmem
  by_cases he : ((List.range CPU_SETSIZE).filter fun cpu => env.isbitset a cpu).isEmpty
  · rw [if_pos he] at hf
    exact absurd hf (by simp)
  · rw [if_neg he] at hf
    rw [Option.some.injEq, Prod.mk.injEq] at hf
    obtain ⟨-, h2⟩ := hf
    rw [← h2] at hc
    exact List.mem_range.mp (List.mem_filter.mp hc).1

set_option maxRecDepth 100000 in
theorem mappingLinux_cpus_bounded_witness :
    (0, [3]) ∈ mappingLinux ⟨0, fun n c => n == 0 && c == 3⟩ ∧
    (3 : Nat) ∈ ([3] : List Nat) ∧ (3 : Nat) < CPU_SETSIZE :=
  ⟨by decide, by decide,
   mappingLinux_cpus_bounded ⟨0, fun n c => n == 0 && c == 3⟩ 0 3 [3]
     (by decide) (by decide)⟩
